import Mathlib

/-!
Verification of the balance-oracle / tier-reconciliation engine of this
repository (src/index.js) against its natural-language specification.

The JavaScript source is shallowly embedded: pure helpers become Lean
functions on `Nat`/`ℚ`/`String`; the network and the Discord collaborator
are modelled as explicit inputs (an `RpcResponse` value per call, a member
list, a `DriverEnv` of collaborator outcomes).  JavaScript BigInt values
are unbounded, so they are embedded as `Nat` (all on-chain quantities in
this program are non-negative).
-/

namespace RoleBot

/-! ## Digit parsing and printing (JavaScript `BigInt(string)` / `toString`)

`decodeHexToDecimal` (src/index.js lines 66-68) is
`BigInt(hexValue).toString(10)`; the normalization in `getTokenBalance`
(line 97) is `BigInt(hexBalance) / 10n ** BigInt(decimals)`.  `BigInt` on a
string accepts a `0x`-prefixed hexadecimal form or a plain decimal form and
yields `0` on the empty string.  (Surrounding whitespace, which `BigInt`
also trims, never occurs in the strings this program feeds it and is not
modelled.) -/

/-- Value of one hexadecimal digit character, both cases accepted, as in
the JavaScript `BigInt` hexadecimal parser. -/
def hexDigitVal (c : Char) : Option Nat :=
  if '0' ≤ c ∧ c ≤ '9' then some (c.toNat - '0'.toNat)
  else if 'a' ≤ c ∧ c ≤ 'f' then some (c.toNat - 'a'.toNat + 10)
  else if 'A' ≤ c ∧ c ≤ 'F' then some (c.toNat - 'A'.toNat + 10)
  else none

/-- Value of one decimal digit character. -/
def decDigitVal (c : Char) : Option Nat :=
  if '0' ≤ c ∧ c ≤ '9' then some (c.toNat - '0'.toNat) else none

/-- Left-to-right accumulating digit parser in base `b`; fails on the first
character that is not a digit, as `BigInt(string)` throws on any invalid
character. -/
def parseDigitsAux (val : Char → Option Nat) (b : Nat) :
    Nat → List Char → Option Nat
  | acc, [] => some acc
  | acc, c :: cs =>
    match val c with
    | some d => parseDigitsAux val b (acc * b + d) cs
    | none => none

/-- JavaScript `BigInt(string)` on the character list of the string:
empty string is `0`, a `0x`/`0X` prefix selects hexadecimal (at least one
digit required), otherwise every character must be a decimal digit.
Failure (`none`) models the `SyntaxError` `BigInt` throws. -/
def parseBigIntChars : List Char → Option Nat
  | [] => some 0
  | c1 :: c2 :: rest =>
    if c1 = '0' ∧ (c2 = 'x' ∨ c2 = 'X') then
      if rest = [] then none else parseDigitsAux hexDigitVal 16 0 rest
    else parseDigitsAux decDigitVal 10 0 (c1 :: c2 :: rest)
  | cs => parseDigitsAux decDigitVal 10 0 cs

/-- JavaScript `BigInt(string)` (on the string forms this program
produces; surrounding whitespace, also accepted by `BigInt`, never occurs
here and is not modelled). -/
def parseBigInt (s : String) : Option Nat := parseBigIntChars s.data

/-- The character for digit value `n` (`0`-`9a`-`f`), as produced by
JavaScript `BigInt.prototype.toString`. -/
def digitChar (n : Nat) : Char :=
  if n < 10 then Char.ofNat ('0'.toNat + n) else Char.ofNat ('a'.toNat + n - 10)

/-- Digit characters of `n` in base `b`, most significant first; the first
argument is structural-recursion fuel (any fuel `≥ n` is exact). -/
def reprDigitsAux (b : Nat) : Nat → Nat → List Char
  | 0, _ => []
  | _ + 1, 0 => []
  | f + 1, n + 1 => reprDigitsAux b f ((n + 1) / b) ++ [digitChar ((n + 1) % b)]

/-- Base-`b` digit string of `n` (`"0"` for zero), as JavaScript
`BigInt.prototype.toString(b)`. -/
def natRepr (b : Nat) (n : Nat) : List Char :=
  if n = 0 then ['0'] else reprDigitsAux b n n

/-- Decimal rendering of an unbounded non-negative integer:
`BigInt.prototype.toString(10)`. -/
def decRepr (n : Nat) : String := String.mk (natRepr 10 n)

/-- Hexadecimal rendering of `n` with a `0x` prefix, the raw-result shape
the node returns for an unsigned integer. -/
def natToHex (n : Nat) : String := "0x" ++ String.mk (natRepr 16 n)

/-- src/index.js lines 66-68: `BigInt(hexValue).toString(10)`; `none`
models the exception on an unparsable string. -/
def decodeHexToDecimal (s : String) : Option String :=
  (parseBigInt s).map decRepr

/-- src/index.js lines 93 and 97, the normalization step of
`getTokenBalance`: `decimals = decodeHexToDecimal(hexDecimals)` and then
`(BigInt(hexBalance) / (10n ** BigInt(decimals))).toString()`.  BigInt
division truncates toward zero, which on non-negative operands is `Nat`
floor division. -/
def formattedBalance (hexBalance hexDecimals : String) : Option String :=
  match decodeHexToDecimal hexDecimals with
  | none => none
  | some decimals =>
    match parseBigInt hexBalance, parseBigInt decimals with
    | some b, some d => some (decRepr (b / 10 ^ d))
    | _, _ => none

/-! ### Correctness of the digit round trip -/

theorem parseDigitsAux_append (val : Char → Option Nat) (b : Nat)
    (l1 l2 : List Char) : ∀ acc,
    parseDigitsAux val b acc (l1 ++ l2) =
      match parseDigitsAux val b acc l1 with
      | some v => parseDigitsAux val b v l2
      | none => none := by
  induction l1 with
  | nil => intro acc; rfl
  | cons c cs ih =>
    intro acc
    simp only [List.cons_append, parseDigitsAux]
    cases val c with
    | none => rfl
    | some d => exact ih (acc * b + d)

theorem parseDigitsAux_reprDigitsAux (val : Char → Option Nat) (b : Nat)
    (hb : 2 ≤ b) (hval : ∀ m, m < b → val (digitChar m) = some m) :
    ∀ f n acc, n ≤ f →
      parseDigitsAux val b acc (reprDigitsAux b f n) =
        some (acc * b ^ (reprDigitsAux b f n).length + n) := by
  intro f
  induction f with
  | zero =>
    intro n acc hn
    interval_cases n
    simp [reprDigitsAux, parseDigitsAux]
  | succ f ih =>
    intro n acc hn
    match n with
    | 0 => simp [reprDigitsAux, parseDigitsAux]
    | m + 1 =>
      have hdiv : (m + 1) / b ≤ f := by
        have h1 : (m + 1) / b < m + 1 :=
          Nat.div_lt_self (Nat.succ_pos m) (by omega)
        omega
      rw [reprDigitsAux, parseDigitsAux_append]
      rw [ih ((m + 1) / b) acc hdiv]
      have hmod : (m + 1) % b < b := Nat.mod_lt _ (by omega)
      simp only [parseDigitsAux, hval _ hmod]
      rw [List.length_append, List.length_singleton]
      congr 1
      have hdm : b * ((m + 1) / b) + (m + 1) % b = m + 1 := Nat.div_add_mod (m + 1) b
      set L := (reprDigitsAux b f ((m + 1) / b)).length with hL
      rw [pow_succ]
      conv_rhs => rw [← hdm]
      ring

theorem hexDigitVal_digitChar : ∀ m, m < 16 → hexDigitVal (digitChar m) = some m := by
  decide

theorem decDigitVal_digitChar : ∀ m, m < 10 → decDigitVal (digitChar m) = some m := by
  decide

theorem reprDigitsAux_mem (b : Nat) (hb : 0 < b) :
    ∀ f n c, c ∈ reprDigitsAux b f n → ∃ m, m < b ∧ c = digitChar m := by
  intro f
  induction f with
  | zero => intro n c h; simp [reprDigitsAux] at h
  | succ f ih =>
    intro n c h
    match n with
    | 0 => simp [reprDigitsAux] at h
    | m + 1 =>
      rw [reprDigitsAux] at h
      rcases List.mem_append.mp h with h1 | h2
      · exact ih _ _ h1
      · rcases List.mem_singleton.mp h2 with rfl
        exact ⟨(m + 1) % b, Nat.mod_lt _ hb, rfl⟩

theorem parseDigitsAux_natRepr (val : Char → Option Nat) (b : Nat) (hb : 2 ≤ b)
    (hval : ∀ m, m < b → val (digitChar m) = some m) (n : Nat) :
    parseDigitsAux val b 0 (natRepr b n) = some n := by
  by_cases h0 : n = 0
  · subst h0
    have h := hval 0 (by omega)
    have hd : digitChar 0 = '0' := by decide
    rw [hd] at h
    simp [natRepr, parseDigitsAux, h]
  · rw [natRepr, if_neg h0]
    rw [parseDigitsAux_reprDigitsAux val b hb hval n n 0 le_rfl]
    simp

theorem natRepr_ne_nil (b n : Nat) : natRepr b n ≠ [] := by
  rw [natRepr]
  split
  · simp
  · cases n with
    | zero => simp_all
    | succ m => rw [reprDigitsAux]; simp

theorem parseBigInt_natToHex (n : Nat) : parseBigInt (natToHex n) = some n := by
  have hdata : (natToHex n).data = '0' :: 'x' :: natRepr 16 n := rfl
  rw [parseBigInt, hdata, parseBigIntChars]
  rw [if_pos ⟨rfl, Or.inl rfl⟩, if_neg (natRepr_ne_nil 16 n)]
  exact parseDigitsAux_natRepr hexDigitVal 16 (by omega) hexDigitVal_digitChar n

theorem digitChar_ne_xX : ∀ m, m < 10 → digitChar m ≠ 'x' ∧ digitChar m ≠ 'X' := by
  decide

theorem parseBigInt_decRepr (n : Nat) : parseBigInt (decRepr n) = some n := by
  have hdata : (decRepr n).data = natRepr 10 n := rfl
  have hparse := parseDigitsAux_natRepr decDigitVal 10 (by omega) decDigitVal_digitChar n
  rw [parseBigInt, hdata]
  match hrep : natRepr 10 n with
  | [] => exact absurd hrep (natRepr_ne_nil 10 n)
  | [c] =>
    rw [hrep] at hparse
    simpa [parseBigIntChars] using hparse
  | c1 :: c2 :: rest =>
    have hc2 : c2 ∈ natRepr 10 n := by rw [hrep]; simp
    have hx : c2 ≠ 'x' ∧ c2 ≠ 'X' := by
      rw [natRepr] at hc2
      split at hc2
      · rcases List.mem_singleton.mp hc2 with rfl
        exact ⟨by decide, by decide⟩
      · rcases reprDigitsAux_mem 10 (by omega) n n c2 hc2 with ⟨m, hm, rfl⟩
        exact digitChar_ne_xX m hm
    rw [parseBigIntChars, if_neg (by rintro ⟨-, h | h⟩ <;> simp_all)]
    rw [← hrep]
    exact hparse

/-- Claim C2, counterexample.  On the input of the example cited by the
spec — raw balance `b = 123456789012345678901234567890` (30 digits) with
`d = 18` decimals — the normalization in `getTokenBalance` yields the
12-digit quotient `123456789012`, not `123` as the spec example states
(`floor(b / 10^18)` removes 18 of the 30 digits). -/
theorem formattedBalance_spec_example_false :
    formattedBalance (natToHex 123456789012345678901234567890) (natToHex 18) ≠
      some "123" ∧
    formattedBalance (natToHex 123456789012345678901234567890) (natToHex 18) =
      some "123456789012" := by
  constructor
  · decide
  · decide

/-- Claim C2, amended: for every raw integer balance `b` and decimals
value `d`, the normalized balance computed by the balance oracle equals
`floor(b / 10^d)` exactly, using unbounded-precision integer arithmetic,
including when `b` has more digits than fit in a 64-bit integer; in the
cited example `b = 123456789012345678901234567890`, `d = 18` yields
`123456789012`. -/
theorem formattedBalance_eq_floor_div :
    (∀ b d : Nat, formattedBalance (natToHex b) (natToHex d) =
      some (decRepr (b / 10 ^ d))) ∧
    formattedBalance (natToHex 123456789012345678901234567890) (natToHex 18) =
      some (decRepr 123456789012) := by
  have hmain : ∀ b d : Nat, formattedBalance (natToHex b) (natToHex d) =
      some (decRepr (b / 10 ^ d)) := by
    intro b d
    have h1 : decodeHexToDecimal (natToHex d) = some (decRepr d) := by
      rw [decodeHexToDecimal, parseBigInt_natToHex]; rfl
    rw [formattedBalance, h1, parseBigInt_natToHex b]
    simp [parseBigInt_decRepr d]
  exact ⟨hmain, hmain 123456789012345678901234567890 18⟩

/-! ## Tier ladder and role reconciler (src/index.js lines 21-29, 172-196)

A threshold is an exclusive upper bound; the JavaScript `Infinity` bound of
the last entry is embedded as `none` (for which `balance < Infinity` is
true for every finite balance).  Balances reaching the ladder are
JavaScript numbers produced by `parseFloat` of a decimal digit string,
hence non-negative finite values; they are embedded as `ℚ`.  A member's
held roles are embedded as the finite set of their names. -/

/-- src/index.js lines 21-27: the threshold table `roleThresholds`. -/
def roleThresholds : List (String × Option ℚ) :=
  [("zklHolder", some 5000),
   ("zkLDolphin 🐬", some 10000),
   ("zklShark 🦈", some 50000),
   ("zklWhale 🐋", some 100000),
   ("zklHumpback 🐳", none)]

/-- src/index.js line 29: `roleNames`, the ladder label list. -/
def roleNames : List String := roleThresholds.map Prod.fst

/-- The comparison `balance < th.max` of line 180; `none` is `Infinity`. -/
def balanceLt (b : ℚ) : Option ℚ → Bool
  | some m => decide (b < m)
  | none => true

/-- Line 180: `roleThresholds.find(th => balance < th.max).roleName`; the
`Option` is `none` when `find` returns `undefined` (a `TypeError` in the
source), which never happens for the balances this program produces. -/
def resolveRoleName (b : ℚ) : Option String :=
  (roleThresholds.find? (fun th => balanceLt b th.2)).map Prod.fst

/-- The ladder label set. -/
def ladderSet : Finset String := roleNames.toFinset

/-- Line 174: `member.roles.cache.filter(r => roleNames.includes(r.name))`
— every held role whose name is a ladder label, the target label not
excluded. -/
def rolesToRemove (roles : Finset String) : Finset String :=
  roles.filter (fun r => r ∈ roleNames)

/-- src/index.js lines 172-196, `assignRoleByBalance` on a member's held
role-name set: remove every held ladder role, resolve the target label
from the balance, create it if absent in the guild (a collaborator
operation with no effect on the member's set), then add it.  `none` models
the `TypeError` thrown when `find` returns `undefined`. -/
def assignRoleByBalance (roles : Finset String) (balance : ℚ) :
    Option (Finset String × String) :=
  let remaining := roles \ rolesToRemove roles
  match resolveRoleName balance with
  | none => none
  | some roleName => some (insert roleName remaining, roleName)

/-! ### Claims C3, C1, C4 -/

/-- Claim C3: for every non-negative balance, tier resolution returns the
label of the first ladder entry whose exclusive upper bound strictly
exceeds the balance (in particular it is total), and on the configured
ladder the boundary values resolve as: 4999 to the first tier, 5000 and
9999 to the second, 10000 to the third, 100000 to the last, 0 to the
first. -/
theorem resolveRoleName_boundaries :
    (∀ b : ℚ, 0 ≤ b → (resolveRoleName b).isSome = true) ∧
    resolveRoleName 4999 = some "zklHolder" ∧
    resolveRoleName 5000 = some "zkLDolphin 🐬" ∧
    resolveRoleName 9999 = some "zkLDolphin 🐬" ∧
    resolveRoleName 10000 = some "zklShark 🦈" ∧
    resolveRoleName 100000 = some "zklHumpback 🐳" ∧
    resolveRoleName 0 = some "zklHolder" := by
  refine ⟨?_, by decide, by decide, by decide, by decide, by decide, by decide⟩
  intro b _
  unfold resolveRoleName roleThresholds
  simp only [List.find?, balanceLt]
  by_cases h1 : b < 5000 <;> by_cases h2 : b < 10000 <;> by_cases h3 : b < 50000 <;>
    by_cases h4 : b < 100000 <;> simp [h1, h2, h3, h4]

/-- Claim C3, witness for the totality conjunct: tier resolution succeeds
at the concrete non-negative balance 4999. -/
theorem resolveRoleName_boundaries_witness :
    (0 : ℚ) ≤ 4999 ∧ (resolveRoleName 4999).isSome = true :=
  ⟨by norm_num, resolveRoleName_boundaries.1 4999 (by norm_num)⟩

/-- Claim C1: whenever `assignRoleByBalance` completes without error, the
intersection of the member's resulting held roles with the ladder label
set is exactly the singleton of the resolved target label (so it has size
1 and the single held ladder label is the tier resolved from the
balance). -/
theorem assignRoleByBalance_exactly_one_tier :
    ∀ (roles : Finset String) (b : ℚ) (roles2 : Finset String) (lbl : String),
      assignRoleByBalance roles b = some (roles2, lbl) →
      roles2 ∩ ladderSet = {lbl} ∧ (roles2 ∩ ladderSet).card = 1 ∧
        resolveRoleName b = some lbl := by
  intro roles b roles2 lbl h
  rw [assignRoleByBalance] at h
  cases hres : resolveRoleName b with
  | none => rw [hres] at h; exact absurd h (by simp)
  | some name =>
    rw [hres] at h
    simp only [Option.some_inj, Prod.mk.injEq] at h
    rcases h with ⟨hroles, hlbl⟩
    subst hlbl
    subst hroles
    have hmem : name ∈ roleNames := by
      rcases Option.map_eq_some'.mp hres with ⟨th, hfind, hfst⟩
      have hth := List.mem_of_find?_eq_some hfind
      rw [roleNames]
      exact hfst ▸ List.mem_map_of_mem Prod.fst hth
    have hinter : (insert name (roles \ rolesToRemove roles)) ∩ ladderSet = {name} := by
      ext x
      simp only [Finset.mem_inter, Finset.mem_insert, Finset.mem_sdiff,
        rolesToRemove, Finset.mem_filter, Finset.mem_singleton, ladderSet,
        List.mem_toFinset]
      constructor
      · rintro ⟨hx | ⟨hx, hnot⟩, hxL⟩
        · exact hx
        · exact absurd ⟨hx, hxL⟩ hnot
      · rintro rfl
        exact ⟨Or.inl rfl, hmem⟩
    exact ⟨hinter, by rw [hinter]; exact Finset.card_singleton name, rfl⟩

/-- Claim C1, witness: a member holding the ladder role `zklHolder` and an
unrelated role `Admin`, reconciled at balance 7000, ends up holding
exactly the one ladder label `zkLDolphin 🐬`. -/
theorem assignRoleByBalance_exactly_one_tier_witness :
    ({"zkLDolphin 🐬", "Admin"} : Finset String) ∩ ladderSet = {"zkLDolphin 🐬"} ∧
    (({"zkLDolphin 🐬", "Admin"} : Finset String) ∩ ladderSet).card = 1 ∧
    resolveRoleName 7000 = some "zkLDolphin 🐬" :=
  assignRoleByBalance_exactly_one_tier {"zklHolder", "Admin"} 7000
    {"zkLDolphin 🐬", "Admin"} "zkLDolphin 🐬" (by decide)

/-- Claim C4, counterexample: with held roles `{zklHolder}` and balance 0
the resolved target label is `zklHolder` itself, yet the reconciler's
remove set is `{zklHolder}` — not the empty set that
`currentRoles ∩ ladderLabelSet \ {targetLabel}` prescribes.  The held
target role is removed (and then re-added); the operation set is not
minimal. -/
theorem rolesToRemove_not_minimal :
    resolveRoleName 0 = some "zklHolder" ∧
    rolesToRemove {"zklHolder"} = {"zklHolder"} ∧
    rolesToRemove {"zklHolder"} ≠ (({"zklHolder"} : Finset String) ∩ ladderSet) \ {"zklHolder"} := by
  refine ⟨by decide, by decide, by decide⟩

/-- Claim C4, amended: the set of roles the reconciler removes equals the
full intersection of the currently held roles with the ladder label set —
the target label is not excluded, so a held role equal to the target label
is removed and afterwards re-added. -/
theorem rolesToRemove_eq_inter :
    ∀ roles : Finset String, rolesToRemove roles = roles ∩ ladderSet := by
  intro roles
  ext x
  simp [rolesToRemove, ladderSet, Finset.mem_filter, Finset.mem_inter,
    List.mem_toFinset]

/-! ## RPC client (src/index.js lines 38-63)

The HTTP layer is a collaborator: a completed round trip delivers a JSON
body with an optional `error` object (its `message` field) and an optional
`result` field.  `rpcCall` checks `response.data.error` and otherwise
returns `response.data.result` — there is no check that `result` is
present, so a structurally invalid body yields a successful return of the
absent value (`none` embeds JavaScript `undefined`). -/

/-- The decoded JSON body of a completed RPC round trip. -/
structure RpcResponse where
  error : Option String
  result : Option String
deriving DecidableEq

/-- src/index.js lines 52-62: throw `RPC request error: <message>` when the
node sent an error object, otherwise return the `result` field as-is. -/
def rpcCall (resp : RpcResponse) : Except String (Option String) :=
  match resp.error with
  | some msg => Except.error ("RPC request error: " ++ msg)
  | none => Except.ok resp.result

/-- Claim C5, counterexample: on a response carrying neither an error
object nor a result field, `rpcCall` does not fail — it returns
successfully with the absent value (JavaScript `undefined`).  No
`ProtocolError` (or any structural check of the response) exists in the
code. -/
theorem rpcCall_missing_result_returns :
    rpcCall ⟨none, none⟩ = Except.ok none ∧
    (rpcCall ⟨none, none⟩).isOk = true := by
  exact ⟨rfl, rfl⟩

/-- Claim C5, amended: for every RPC response without an error object,
`rpcCall` returns the `result` field unchecked; when the field is absent
the call still succeeds and hands `undefined` (`none`) to the caller
instead of failing with a protocol error. -/
theorem rpcCall_passes_result_unchecked :
    ∀ r : Option String, rpcCall ⟨none, r⟩ = Except.ok r := by
  intro r
  rfl

/-! ## Value decoder for text (src/index.js lines 71-75)

`decodeHexToString` strips an optional `0x` prefix, converts hex pairs to
bytes (`Buffer.from(hex, 'hex')` stops at the first invalid pair and drops
an odd trailing digit), decodes the bytes as UTF-8 the way Node does
(WHATWG decoding: maximal-subpart invalid sequences become U+FFFD, never
an exception), then deletes NUL characters (`replace(/\0/g, '')`) and
C0/DEL control characters (`replace(/[\x00-\x1F\x7F]/g, '')`). -/

/-- Node `Buffer.from(hex, 'hex')`: left-to-right pairs of hex digits;
decoding stops at the first invalid pair, and a dangling single digit is
dropped. -/
def hexPairsToBytes : List Char → List Nat
  | c1 :: c2 :: rest =>
    match hexDigitVal c1, hexDigitVal c2 with
    | some h, some l => (h * 16 + l) :: hexPairsToBytes rest
    | _, _ => []
  | _ => []

/-- The Unicode replacement character U+FFFD. -/
def replacementChar : Char := Char.ofNat 0xFFFD

/-- Is `b` a UTF-8 continuation byte (`0x80`-`0xBF`)? -/
def isCont (b : Nat) : Bool := decide (0x80 ≤ b ∧ b ≤ 0xBF)

/-- One step of WHATWG UTF-8 decoding with replacement: fuel-driven
structural recursion (any fuel at least the list length is exact).  On a
malformed sequence it emits U+FFFD and resumes at the offending byte. -/
def utf8DecodeAux : Nat → List Nat → List Char
  | 0, _ => []
  | _ + 1, [] => []
  | f + 1, b :: rest =>
    if b < 0x80 then Char.ofNat b :: utf8DecodeAux f rest
    else if 0xC2 ≤ b ∧ b ≤ 0xDF then
      match rest with
      | c1 :: rest2 =>
        if isCont c1 then
          Char.ofNat ((b - 0xC0) * 0x40 + (c1 - 0x80)) :: utf8DecodeAux f rest2
        else replacementChar :: utf8DecodeAux f rest
      | [] => [replacementChar]
    else if 0xE0 ≤ b ∧ b ≤ 0xEF then
      match rest with
      | c1 :: rest2 =>
        if (b = 0xE0 ∧ 0xA0 ≤ c1 ∧ c1 ≤ 0xBF) ∨
            (b = 0xED ∧ 0x80 ≤ c1 ∧ c1 ≤ 0x9F) ∨
            (b ≠ 0xE0 ∧ b ≠ 0xED ∧ isCont c1) then
          match rest2 with
          | c2 :: rest3 =>
            if isCont c2 then
              Char.ofNat ((b - 0xE0) * 0x1000 + (c1 - 0x80) * 0x40 + (c2 - 0x80)) ::
                utf8DecodeAux f rest3
            else replacementChar :: utf8DecodeAux f rest2
          | [] => [replacementChar]
        else replacementChar :: utf8DecodeAux f rest
      | [] => [replacementChar]
    else if 0xF0 ≤ b ∧ b ≤ 0xF4 then
      match rest with
      | c1 :: rest2 =>
        if (b = 0xF0 ∧ 0x90 ≤ c1 ∧ c1 ≤ 0xBF) ∨
            (b = 0xF4 ∧ 0x80 ≤ c1 ∧ c1 ≤ 0x8F) ∨
            (b ≠ 0xF0 ∧ b ≠ 0xF4 ∧ isCont c1) then
          match rest2 with
          | c2 :: rest3 =>
            if isCont c2 then
              match rest3 with
              | c3 :: rest4 =>
                if isCont c3 then
                  Char.ofNat ((b - 0xF0) * 0x40000 + (c1 - 0x80) * 0x1000 +
                    (c2 - 0x80) * 0x40 + (c3 - 0x80)) :: utf8DecodeAux f rest4
                else replacementChar :: utf8DecodeAux f rest3
              | [] => [replacementChar]
            else replacementChar :: utf8DecodeAux f rest2
          | [] => [replacementChar]
        else replacementChar :: utf8DecodeAux f rest
      | [] => [replacementChar]
    else replacementChar :: utf8DecodeAux f rest

/-- Node `buf.toString('utf8')`: WHATWG UTF-8 decoding with replacement. -/
def utf8Decode (bs : List Nat) : List Char := utf8DecodeAux bs.length bs

/-- The character class of `/[\x00-\x1F\x7F]/`: C0 controls and DEL. -/
def isControlOrDel (c : Char) : Bool := decide (c.toNat ≤ 0x1F ∨ c.toNat = 0x7F)

/-- Line 72, `hexValue.startsWith('0x') ? hexValue.slice(2) : hexValue`,
on the character list. -/
def stripHexPrefix : List Char → List Char
  | '0' :: 'x' :: rest => rest
  | cs => cs

/-- src/index.js lines 71-75, `decodeHexToString`: strip an optional `0x`
prefix, hex pairs to bytes, UTF-8 decode, delete NUL characters, delete
C0/DEL control characters. -/
def decodeHexToString (hexValue : String) : String :=
  let buf := hexPairsToBytes (stripHexPrefix hexValue.data)
  String.mk (((utf8Decode buf).filter (fun c => c != Char.ofNat 0)).filter
    (fun c => ! isControlOrDel c))

/-! ### Claims C6 and C8 -/

/-- Claim C6, counterexample: on the invalid byte sequence `0xff` (a lone
byte that is not valid UTF-8) the decoder returns the one-character string
U+FFFD — not the empty string the spec prescribes for decode failures. -/
theorem decodeHexToString_invalid_not_empty :
    decodeHexToString "0xff" ≠ "" ∧
    decodeHexToString "0xff" = String.mk [replacementChar] := by
  exact ⟨by decide, by decide⟩

/-- Claim C6, amended: the decoder never raises; an invalid byte sequence
is decoded with U+FFFD replacement characters substituted for its
maximal invalid subparts (shown for a lone invalid byte and for a
truncated multi-byte sequence), and an empty result decodes to the empty
string. -/
theorem decodeHexToString_replacement_fallback :
    decodeHexToString "0xff" = String.mk [replacementChar] ∧
    decodeHexToString "0xe381" = String.mk [replacementChar] ∧
    decodeHexToString "0x" = "" ∧
    decodeHexToString "" = "" := by
  exact ⟨by decide, by decide, rfl, rfl⟩

/-- Claim C8: the decoded text never contains a C0 control character or
DEL (in particular no NUL), and the 32-byte word holding ASCII `ZKL`
followed by zero padding decodes to exactly `"ZKL"`. -/
theorem decodeHexToString_strips_padding :
    (∀ s : String, (decodeHexToString s).data.all (fun c => ! isControlOrDel c) = true) ∧
    decodeHexToString
      "0x5a4b4c0000000000000000000000000000000000000000000000000000000000" = "ZKL" := by
  constructor
  · intro s
    rw [decodeHexToString]
    rw [List.all_eq_true]
    intro c hc
    exact (List.mem_filter.mp hc).2
  · rfl

/-! ## Identity resolution (src/index.js lines 105-139)

`resolveUserId` receives free-form text and the guild: the guild is
embedded as its membership listing, and the existence lookup
`message.guild.members.fetch(id)` of the bare-numeric branch succeeds
exactly when a listed member carries that id (its rejection is the `catch`
returning `null`). -/

/-- One entry of the membership listing: the user id, name, and
discriminator of a guild member. -/
structure GuildMember where
  id : String
  username : String
  discriminator : String
deriving DecidableEq

/-- JavaScript `toLowerCase()` (ASCII range; the usernames this program
compares are ASCII). -/
def lowerStr (s : String) : String := String.mk (s.data.map Char.toLower)

/-- JavaScript `String.prototype.split` with a one-character separator, on
the character list: `"a#b#c"` gives `["a","b","c"]`, the empty string
gives `[""]`, and separators at the ends give empty fields. -/
def splitOnChar (sep : Char) : List Char → List (List Char)
  | [] => [[]]
  | c :: cs =>
    match splitOnChar sep cs with
    | [] => [[]]
    | g :: gs => if c = sep then [] :: g :: gs else (c :: g) :: gs

/-- The test `/^\d+$/.test(input)` of the bare-numeric branch. -/
def digitsOnly (s : String) : Bool := !s.isEmpty && s.data.all Char.isDigit

/-- The `(\d+)>$` part of the mention pattern: at least one digit followed
by exactly a closing `>`, returning the captured digits. -/
def mentionDigits (core : List Char) : Option String :=
  if core.takeWhile Char.isDigit ≠ [] ∧ core.dropWhile Char.isDigit = ['>'] then
    some (String.mk (core.takeWhile Char.isDigit))
  else none

/-- The regular expression `/^<@!?(\d+)>$/` of line 107 on the character
list: literal `<@`, an optional `!`, one or more digits (captured), then a
closing `>` at the end of the input. -/
def mentionCore : List Char → Option String
  | '<' :: '@' :: rest =>
    mentionDigits (if rest.head? = some '!' then rest.tail else rest)
  | _ => none

/-- `input.match(/^<@!?(\d+)>$/)`, returning the captured digit group. -/
def mentionMatch (s : String) : Option String := mentionCore s.data

/-- src/index.js lines 105-139, `resolveUserId`: (1) a mention returns the
embedded digits with no lookup; (2) a bare numeric id is validated by an
existence fetch, `null` on failure; (3) otherwise the input is split on
`#` into a username and an optional discriminator and matched
case-insensitively against the membership listing with `find`, which
yields the first match in listing order, or `null` when nothing
matches. -/
def resolveUserId (members : List GuildMember) (input : String) : Option String :=
  match mentionMatch input with
  | some ds => some ds
  | none =>
    if digitsOnly input then
      if members.any (fun m => m.id == input) then some input else none
    else
      match splitOnChar '#' input.data with
      | [] => none
      | username :: restParts =>
        if username = [] then none
        else
          match restParts.head? with
          | none =>
            (members.find? (fun m =>
              lowerStr m.username == lowerStr (String.mk username))).map
              GuildMember.id
          | some [] =>
            (members.find? (fun m =>
              lowerStr m.username == lowerStr (String.mk username))).map
              GuildMember.id
          | some disc =>
            (members.find? (fun m =>
              lowerStr m.username == lowerStr (String.mk username) &&
                m.discriminator == String.mk disc)).map GuildMember.id

/-- Does member `m` match the name pattern of `input` in the name-lookup
branch of `resolveUserId`?  This is the predicate passed to `find` there:
for a `username`-only input (no `#` part, or an empty one) a
case-insensitive username comparison; for `username#discriminator` that
comparison conjoined with an exact discriminator comparison.  An input
whose match against the listing is absent is one for which this is false
for every listed member. -/
def nameQueryMatches (input : String) (m : GuildMember) : Bool :=
  match splitOnChar '#' input.data with
  | [] => false
  | username :: restParts =>
    if username = [] then false
    else
      match restParts.head? with
      | none => lowerStr m.username == lowerStr (String.mk username)
      | some [] => lowerStr m.username == lowerStr (String.mk username)
      | some disc =>
        lowerStr m.username == lowerStr (String.mk username) &&
          m.discriminator == String.mk disc

/-! ### Claims C7 and C10 -/

theorem takeWhile_append_last (p : Char → Bool) (c : Char) (hc : p c = false) :
    ∀ l : List Char, l.all p = true →
      (l ++ [c]).takeWhile p = l ∧ (l ++ [c]).dropWhile p = [c] := by
  intro l
  induction l with
  | nil =>
    intro _
    simp [List.takeWhile, List.dropWhile, hc]
  | cons x xs ih =>
    intro hall
    rw [List.all_cons, Bool.and_eq_true] at hall
    have := ih hall.2
    simp [List.takeWhile, List.dropWhile, hall.1, this.1, this.2]

theorem mentionCore_ne_lt (c : Char) (cs : List Char) (hc : c ≠ '<') :
    mentionCore (c :: cs) = none := by
  unfold mentionCore
  split
  · rename_i heq
    injection heq with h1 _
    exact absurd h1 hc
  · rfl

theorem isDigit_ne (c : Char) (hd : c.isDigit = true) : c ≠ '!' ∧ c ≠ '<' := by
  rw [Char.isDigit] at hd
  constructor <;> rintro rfl <;> simp at hd

theorem mentionDigits_append (l : List Char) (hne : l ≠ [])
    (hall : l.all Char.isDigit = true) :
    mentionDigits (l ++ ['>']) = some (String.mk l) := by
  have hspan := takeWhile_append_last Char.isDigit '>' (by decide) l hall
  rw [mentionDigits, hspan.1, hspan.2, if_pos ⟨hne, rfl⟩]

/-- The digit group of a well-formed mention is returned as matched:
`mentionMatch` on `<@` + digits + `>` (optionally with `!`) yields the
digits. -/
theorem mentionMatch_digits (ds : String) (hne : ds ≠ "")
    (hdig : ds.data.all Char.isDigit = true) :
    mentionMatch (("<@" ++ ds) ++ ">") = some ds ∧
    mentionMatch (("<@!" ++ ds) ++ ">") = some ds := by
  have hdata : ds.data ≠ [] := fun h =>
    hne (by cases ds with | mk l => simpa using congrArg String.mk h)
  have heta : String.mk ds.data = ds := rfl
  constructor
  · have h1 : (("<@" ++ ds) ++ ">").data = '<' :: '@' :: (ds.data ++ ['>']) := by
      simp [String.data_append]
    rw [mentionMatch, h1, mentionCore]
    have hhead : ¬ (ds.data ++ ['>']).head? = some '!' := by
      cases hd : ds.data with
      | nil => exact absurd hd hdata
      | cons x xs =>
        have hx : x.isDigit = true := by
          rw [hd, List.all_cons, Bool.and_eq_true] at hdig
          exact hdig.1
        simp only [List.cons_append, List.head?_cons]
        intro hcon
        exact absurd (Option.some_inj.mp hcon) (isDigit_ne x hx).1
    rw [if_neg hhead, mentionDigits_append ds.data hdata hdig, heta]
  · have h1 : (("<@!" ++ ds) ++ ">").data = '<' :: '@' :: ('!' :: (ds.data ++ ['>'])) := by
      simp [String.data_append]
    rw [mentionMatch, h1, mentionCore, List.head?_cons, if_pos rfl, List.tail_cons,
      mentionDigits_append ds.data hdata hdig, heta]

/-- Claim C10: a mention input resolves to the embedded numeric identifier
with no existence lookup — for every membership listing, including one
where no member carries that identifier — while the bare-numeric branch
validates by fetching and yields `none` when no member carries the
identifier. -/
theorem resolveUserId_mention_skips_lookup :
    ∀ (ds : String) (members : List GuildMember),
      ds ≠ "" → ds.data.all Char.isDigit = true →
      resolveUserId members (("<@" ++ ds) ++ ">") = some ds ∧
      resolveUserId members (("<@!" ++ ds) ++ ">") = some ds ∧
      ((∀ m ∈ members, m.id ≠ ds) → resolveUserId members ds = none) := by
  intro ds members hne hdig
  have hmm := mentionMatch_digits ds hne hdig
  refine ⟨?_, ?_, ?_⟩
  · rw [resolveUserId, hmm.1]
  · rw [resolveUserId, hmm.2]
  · intro habs
    have hdata : ds.data ≠ [] := fun h =>
      hne (by cases ds with | mk l => simpa using congrArg String.mk h)
    have hmds : mentionMatch ds = none := by
      rw [mentionMatch]
      cases hd : ds.data with
      | nil => exact absurd hd hdata
      | cons x xs =>
        have hx : x.isDigit = true := by
          rw [hd, List.all_cons, Bool.and_eq_true] at hdig
          exact hdig.1
        exact mentionCore_ne_lt x xs (isDigit_ne x hx).2
    rw [resolveUserId, hmds]
    have hdo : digitsOnly ds = true := by
      rw [digitsOnly, hdig]
      have hie : ds.isEmpty = false := by
        rw [Bool.eq_false_iff]
        exact fun h => hne ((String.isEmpty_iff ds).mp h)
      rw [hie]
      rfl
    rw [hdo]
    have hany : (members.any fun m => m.id == ds) = false := by
      rw [List.any_eq_false]
      intro m hmem
      rw [beq_iff_eq]
      exact habs m hmem
    rw [hany]
    simp

/-- Claim C10, witness: with a membership listing containing only the
member with id 42, the mention `<@999>` (and `<@!999>`) of the absent id
999 still resolves to `999`, while the bare input `999` resolves to
`none`. -/
theorem resolveUserId_mention_skips_lookup_witness :
    resolveUserId [⟨"42", "Bob", "0007"⟩] (("<@" ++ "999") ++ ">") = some "999" ∧
    resolveUserId [⟨"42", "Bob", "0007"⟩] (("<@!" ++ "999") ++ ">") = some "999" ∧
    resolveUserId [⟨"42", "Bob", "0007"⟩] "999" = none := by
  have h := resolveUserId_mention_skips_lookup "999" [⟨"42", "Bob", "0007"⟩]
    (by decide) (by decide)
  exact ⟨h.1, h.2.1, h.2.2 (by decide)⟩

/-- Claim C7, counterexample: with a membership listing in which two
members (ids 1 and 2) both match the input `ALICE` case-insensitively —
an ambiguous match — identity resolution does not return "not found": it
returns the first matching member's id, a guess. -/
theorem resolveUserId_ambiguous_guesses :
    lowerStr "Alice" = lowerStr "ALICE" ∧
    lowerStr "alice" = lowerStr "ALICE" ∧
    resolveUserId [⟨"1", "Alice", "1111"⟩, ⟨"2", "alice", "2222"⟩] "ALICE" =
      some "1" := by
  exact ⟨by decide, by decide, by decide⟩

/-- Claim C7, amended: for every free-form input matching neither the
mention pattern nor the bare-numeric pattern, when the input's match
against the membership listing is absent — no listed member matches its
name pattern (its username case-insensitively, and its discriminator
exactly when one is given) — identity resolution returns "not found"
(`none`), and it never throws, being a total function of the listing and
the input.  When more than one member matches, however, resolution
returns the first matching member's id in listing order (a guess), not
`none`. -/
theorem resolveUserId_absent_not_found :
    (∀ (members : List GuildMember) (input : String),
      mentionMatch input = none →
      digitsOnly input = false →
      (∀ m ∈ members, nameQueryMatches input m = false) →
      resolveUserId members input = none) ∧
    resolveUserId [⟨"1", "Alice", "1111"⟩, ⟨"2", "alice", "2222"⟩] "ALICE" =
      some "1" := by
  constructor
  · intro members input hm hd hn
    rw [resolveUserId, hm, hd]
    simp only [Bool.false_eq_true, if_false]
    cases hsp : splitOnChar '#' input.data with
    | nil => rfl
    | cons u rest =>
      simp only []
      have hq : ∀ m ∈ members, nameQueryMatches input m = false := hn
      by_cases hu : u = []
      · rw [if_pos hu]
      · rw [if_neg hu]
        cases hh : rest.head? with
        | none =>
          rw [Option.map_eq_none', List.find?_eq_none]
          intro m hmem
          have h := hq m hmem
          rw [nameQueryMatches, hsp] at h
          simp only [] at h
          rw [if_neg hu, hh] at h
          simp only [] at h
          rw [h]
          exact Bool.false_ne_true
        | some d =>
          cases d with
          | nil =>
            rw [Option.map_eq_none', List.find?_eq_none]
            intro m hmem
            have h := hq m hmem
            rw [nameQueryMatches, hsp] at h
            simp only [] at h
            rw [if_neg hu, hh] at h
            simp only [] at h
            rw [h]
            exact Bool.false_ne_true
          | cons c cs =>
            rw [Option.map_eq_none', List.find?_eq_none]
            intro m hmem
            have h := hq m hmem
            rw [nameQueryMatches, hsp] at h
            simp only [] at h
            rw [if_neg hu, hh] at h
            simp only [] at h
            rw [h]
            exact Bool.false_ne_true
  · decide

/-- Claim C7, witness for the general conjunct: against the listing with
members `Alice#1111` (id 1) and `alice#2222` (id 2), the input `carol`
(username matching no member) and the input `Alice#9999` (username
matching but discriminator matching no member) both resolve to `none`. -/
theorem resolveUserId_absent_not_found_witness :
    resolveUserId [⟨"1", "Alice", "1111"⟩, ⟨"2", "alice", "2222"⟩] "carol" =
      none ∧
    resolveUserId [⟨"1", "Alice", "1111"⟩, ⟨"2", "alice", "2222"⟩] "Alice#9999" =
      none :=
  ⟨resolveUserId_absent_not_found.1
    [⟨"1", "Alice", "1111"⟩, ⟨"2", "alice", "2222"⟩] "carol"
    (by decide) (by decide) (by decide),
   resolveUserId_absent_not_found.1
    [⟨"1", "Alice", "1111"⟩, ⟨"2", "alice", "2222"⟩] "Alice#9999"
    (by decide) (by decide) (by decide)⟩

/-! ## Batch reconciliation driver (src/index.js lines 214-251)

`updateAllUserRoles` iterates the registered (identity, wallet) rows; the
body of the per-row loop is wrapped in `try`/`catch`, so one row's failure
is logged and the loop continues.  The collaborators a row's attempt
depends on — the member fetch and the token-balance pipeline — are
embedded as an environment of per-row outcomes (`Except` mirroring
JavaScript exceptions); the attempt then runs the embedded
`assignRoleByBalance`. -/

/-- Collaborator outcomes: `fetchMember` is `guild.members.fetch(id)`
(the member's current held role names, or a rejection), `tokenBalance` is
`getTokenBalance(wallet, token)` followed by `parseFloat` (the numeric
balance and symbol, or a rejection). -/
structure DriverEnv where
  fetchMember : String → Except String (Finset String)
  tokenBalance : String → Except String (ℚ × String)

/-- The body of the per-row loop (lines 236-245): fetch the member, fetch
the balance, reconcile; the result is the assigned role name, and any
raised error is the caught failure. -/
def attemptHolder (env : DriverEnv) (row : String × String) : Except String String :=
  match env.fetchMember row.1 with
  | Except.error e => Except.error e
  | Except.ok roles =>
    match env.tokenBalance row.2 with
    | Except.error e => Except.error e
    | Except.ok (bal, _) =>
      match assignRoleByBalance roles bal with
      | some (_, roleName) => Except.ok roleName
      | none => Except.error "TypeError"

/-- src/index.js lines 234-246: the catching loop over the registered
rows.  The `catch` only logs, so the recursion continues past a failed
row unconditionally; the outcome list records each row's attempt. -/
def updateAllUserRoles (env : DriverEnv) : List (String × String) → List (Except String String)
  | [] => []
  | row :: rest => attemptHolder env row :: updateAllUserRoles env rest

/-- A concrete environment for the batch-isolation example: every member
fetch succeeds (no held roles), and the RPC-backed balance pipeline
raises for wallet `w2` and yields balance 7000 elsewhere. -/
def envHolder2Fails : DriverEnv where
  fetchMember := fun _ => Except.ok ∅
  tokenBalance := fun w =>
    if w = "w2" then Except.error "RPC request error: execution reverted"
    else Except.ok (7000, "ZKL")

/-- Claim C9: a failure while reconciling one holder does not abort the
remaining holders — the outcome list decomposes around any row, so every
row before and after it is attempted with an outcome independent of that
row; concretely, with three registered holders whose second holder's RPC
call fails, holders 1 and 3 are still reconciled (both receive the
resolved tier role) while holder 2's failure is recorded. -/
theorem updateAllUserRoles_isolates_failures :
    (∀ (env : DriverEnv) (pre : List (String × String)) (row : String × String)
      (post : List (String × String)),
      updateAllUserRoles env (pre ++ row :: post) =
        updateAllUserRoles env pre ++
          attemptHolder env row :: updateAllUserRoles env post) ∧
    updateAllUserRoles envHolder2Fails [("u1", "w1"), ("u2", "w2"), ("u3", "w3")] =
      [Except.ok "zkLDolphin 🐬",
       Except.error "RPC request error: execution reverted",
       Except.ok "zkLDolphin 🐬"] := by
  constructor
  · intro env pre row post
    induction pre with
    | nil => rfl
    | cons r rs ih => rw [List.cons_append, updateAllUserRoles, ih]; rfl
  · rfl

end RoleBot
